import Mathlib

/-!
Shallow embedding of `use-abortable-effect` (`src/index.js`): a React hook
`useAbortableEffect(effect, deps)` that keeps an `AbortController` per effect
activation, re-creating the controller on every re-activation after the first
and registering a teardown that either calls the user-returned cleanup
function with the controller, or calls `controller.abort()` by default.

The host React semantics the hook is written against (useRef cells, the
useEffect commit protocol: run the previous effect's destroy function, then
the new effect, only when the dependency list changed) are embedded as a
deterministic state machine `Sim` driven by `Step`s (render, unmount, and an
external `ref.current.abort()` call).  An event trace records every
invocation of the user effect and of the two teardown paths.
-/

namespace UseAbortableEffect

/-- JavaScript values usable as dependency-list entries.  Primitives carry
their value; objects carry only a reference identity, mirroring that
`Object.is` on objects is reference comparison. -/
inductive JSVal where
  | str (s : String)
  | num (n : Int)
  | boolean (b : Bool)
  | undef
  | objRef (id : Nat)
deriving DecidableEq, Repr

/-- `Object.is` on the embedded values: structural on primitives, reference
identity on objects (the derived decidable equality realises exactly that). -/
def objectIs (a b : JSVal) : Bool := a == b

/-- React's `areHookInputsEqual` comparison loop: element-wise `Object.is`
over the common prefix of the two dependency lists. -/
def depsZipEqual : List JSVal → List JSVal → Bool
  | [], _ => true
  | _ :: _, [] => true
  | a :: as, b :: bs => objectIs a b && depsZipEqual as bs

/-- State of one `AbortController` (or of the mock fallback object built by
`createAbortController` when the global `AbortController` is undefined).
`notified` counts how many times listeners on the signal were notified of an
abort. -/
structure CtrlState where
  isMock : Bool
  aborted : Bool
  notified : Nat
deriving DecidableEq, Repr

/-- `createAbortController` from `src/index.js`: a fresh native controller
when the environment provides `AbortController`, otherwise the mock object
whose `abort` is a noop and whose signal starts (and stays) un-aborted. -/
def createAbortController (envHasAC : Bool) : CtrlState :=
  { isMock := !envHasAC, aborted := false, notified := 0 }

/-- Behaviour of `controller.abort()` on the controller state: a noop on the
mock; on a native controller it flips `aborted` and notifies listeners, and
is a noop when the signal is already aborted. -/
def abortCtrlState (c : CtrlState) : CtrlState :=
  if c.isMock then c
  else if c.aborted then c
  else { c with aborted := true, notified := c.notified + 1 }

/-- Update the element at index `i` of a list, leaving other positions (and
out-of-range indices) unchanged. -/
def modifyIdx {α : Type} : List α → Nat → (α → α) → List α
  | [], _, _ => []
  | c :: cs, 0, f => f c :: cs
  | c :: cs, n + 1, f => c :: modifyIdx cs n f

/-- The `signal` object of the controller with store index `ofCtrl`: the
observable half handed to the user effect (`effect(controller.signal)`). -/
structure AbortSignalRef where
  ofCtrl : Nat
deriving DecidableEq, Repr

/-- Observable events of one hook instance: the user effect being invoked
(with the signal it received), a user-returned cleanup function being invoked
(with the controller it received), and the default teardown calling
`controller.abort()`.  The first index is always the activation number the
event belongs to; the second is the controller store index involved. -/
inductive Event where
  | effectCall (activation : Nat) (sig : AbortSignalRef)
  | customCleanup (activation : Nat) (ctrl : Nat)
  | defaultAbort (activation : Nat) (ctrl : Nat)
deriving DecidableEq, Repr

/-- The teardown registered by one effect run: the closure
`() => cleanupFn.call(null, controller)` when the effect returned a function,
or `() => controller.abort()` otherwise.  Both capture the activation's own
`controller` local. -/
inductive Cleanup where
  | custom (activation ctrl : Nat)
  | dflt (activation ctrl : Nat)
deriving DecidableEq, Repr

/-- Behaviour of the user-supplied effect, indexed by activation number:
whether the effect run returns a cleanup function, and whether that cleanup
function itself calls `abort()` on the controller it is handed. -/
structure UserEffect where
  returnsFn : Nat → Bool
  cleanupCallsAbort : Nat → Bool

/-- Whole-instance state: the environment flag read by
`createAbortController`, the store of all controllers ever created (index =
creation order), the two `useRef` cells (`firstRun`, `controllerRef` holding
a store index), whether the component is still mounted, the dependency list
of the last committed render (`none` before the first commit; the inner
`none` means the deps argument was omitted), the currently registered
teardown, the event trace, and how many activations have run. -/
structure Sim where
  envHasAC : Bool
  ctrls : List CtrlState
  firstRun : Bool
  controllerRef : Option Nat
  mounted : Bool
  prevDeps : Option (Option (List JSVal))
  pendingCleanup : Option Cleanup
  trace : List Event
  activations : Nat
deriving DecidableEq, Repr

/-- State of a freshly mounted component instance, before its first render
body has run. -/
def initSim (env : Bool) : Sim :=
  { envHasAC := env, ctrls := [], firstRun := true, controllerRef := none,
    mounted := true, prevDeps := none, pendingCleanup := none, trace := [],
    activations := 0 }

/-- Run the registered teardown (React calling the destroy function of the
previous effect): the custom path invokes the user cleanup with the captured
controller (which may call `abort()` on it); the default path calls
`controller.abort()` on the captured controller. -/
def runCleanup (ue : UserEffect) (s : Sim) : Sim :=
  match s.pendingCleanup with
  | none => s
  | some (Cleanup.custom k c) =>
      let s := { s with trace := s.trace ++ [Event.customCleanup k c],
                        pendingCleanup := none }
      if ue.cleanupCallsAbort k then
        { s with ctrls := modifyIdx s.ctrls c abortCtrlState }
      else s
  | some (Cleanup.dflt k c) =>
      { s with trace := s.trace ++ [Event.defaultAbort k c],
               ctrls := modifyIdx s.ctrls c abortCtrlState,
               pendingCleanup := none }

/-- React's decision whether the committed render re-runs the effect: always
on the first commit, always when the deps argument is omitted, and otherwise
exactly when `areHookInputsEqual` fails on the stored deps. -/
def shouldRunEffect (deps : Option (List JSVal)) (s : Sim) : Bool :=
  match s.prevDeps with
  | none => true
  | some stored =>
    match deps with
    | none => true
    | some nextDeps =>
      match stored with
      | none => true
      | some prevList => !(depsZipEqual nextDeps prevList)

/-- One committed render of the owning component.  Render body: the hook
creates the initial controller into `controllerRef` if the cell is still
empty (`if (!controllerRef.current)`).  Commit: if the effect re-runs, React
first calls the previous destroy function, then the hook's effect callback
runs — on non-first runs it installs a brand-new controller, it invokes
`effect(controller.signal)`, and registers the next teardown from the
effect's return value. -/
def renderStep (ue : UserEffect) (deps : Option (List JSVal)) (s : Sim) : Sim :=
  if s.mounted = false then s else
  let s :=
    match s.controllerRef with
    | some _ => s
    | none =>
        { s with ctrls := s.ctrls ++ [createAbortController s.envHasAC],
                 controllerRef := some s.ctrls.length }
  let s :=
    if shouldRunEffect deps s then
      let s := runCleanup ue s
      let s :=
        if s.firstRun = false then
          { s with ctrls := s.ctrls ++ [createAbortController s.envHasAC],
                   controllerRef := some s.ctrls.length }
        else { s with firstRun := false }
      match s.controllerRef with
      | none => s
      | some c =>
          let k := s.activations
          { s with trace := s.trace ++ [Event.effectCall k ⟨c⟩],
                   activations := k + 1,
                   pendingCleanup :=
                     some (if ue.returnsFn k then Cleanup.custom k c
                           else Cleanup.dflt k c) }
    else s
  { s with prevDeps := some deps }

/-- Destruction of the owning component instance: React runs the final
destroy function of the effect. -/
def unmountStep (ue : UserEffect) (s : Sim) : Sim :=
  if s.mounted then { runCleanup ue s with mounted := false }
  else s

/-- An external caller doing `abortControllerRef.current.abort()` at an
arbitrary time. -/
def externalAbort (s : Sim) : Sim :=
  match s.controllerRef with
  | none => s
  | some c => { s with ctrls := modifyIdx s.ctrls c abortCtrlState }

/-- Interactions the host can drive the instance through. -/
inductive Step where
  | render (deps : Option (List JSVal))
  | unmount
  | extAbort
deriving DecidableEq, Repr

/-- Apply one interaction. -/
def runStep (ue : UserEffect) (s : Sim) : Step → Sim
  | Step.render deps => renderStep ue deps s
  | Step.unmount => unmountStep ue s
  | Step.extAbort => externalAbort s

/-- Run a whole interaction sequence from the freshly mounted state. -/
def runSteps (ue : UserEffect) (env : Bool) (steps : List Step) : Sim :=
  steps.foldl (runStep ue) (initSim env)

/-! ### Derived descriptions of the reachable states -/

/-- The teardown event activation `k` produces, according to whether its
effect run returned a cleanup function. -/
def tdEvent (ue : UserEffect) (k : Nat) : Event :=
  if ue.returnsFn k then Event.customCleanup k k else Event.defaultAbort k k

/-- The teardown registered by activation `k` (whose controller has store
index `k` in every reachable state). -/
def mkCleanup (ue : UserEffect) (k : Nat) : Cleanup :=
  if ue.returnsFn k then Cleanup.custom k k else Cleanup.dflt k k

/-- Effect of running activation `k`'s teardown on the controller store:
unchanged when the user cleanup does not abort, otherwise controller `k` gets
aborted. -/
def teardownCtrls (ue : UserEffect) (k : Nat) (ctrls : List CtrlState) : List CtrlState :=
  if ue.returnsFn k = true ∧ ue.cleanupCallsAbort k = false then ctrls
  else modifyIdx ctrls k abortCtrlState

/-- The canonical trace after `n` activations while activation `n - 1`'s
teardown is still pending: effect calls `0, …, n-1`, each one after the
teardown of its predecessor. -/
def traceUpTo (ue : UserEffect) : Nat → List Event
  | 0 => []
  | k + 1 =>
      traceUpTo ue k
        ++ (match k with
            | 0 => []
            | j + 1 => [tdEvent ue j])
        ++ [Event.effectCall k ⟨k⟩]

/-- The canonical trace after `act` activations, with `pendingSome` recording
whether the latest activation's teardown is still registered (if not, it has
already run and closes the trace). -/
def fullTrace (ue : UserEffect) (act : Nat) (pendingSome : Bool) : List Event :=
  match act, pendingSome with
  | 0, _ => []
  | _ + 1, true => traceUpTo ue act
  | m + 1, false => traceUpTo ue (m + 1) ++ [tdEvent ue m]

/-- Recognise the effect-call event of activation `k`. -/
def isEffectCallOf (k : Nat) : Event → Bool
  | Event.effectCall j _ => j == k
  | _ => false

/-- Recognise a custom-cleanup invocation belonging to activation `k`. -/
def isCustomOf (k : Nat) : Event → Bool
  | Event.customCleanup j _ => j == k
  | _ => false

/-- Recognise a default `abort()` teardown belonging to activation `k`. -/
def isDefaultOf (k : Nat) : Event → Bool
  | Event.defaultAbort j _ => j == k
  | _ => false

/-- How many times activation `k`'s effect call appears in a trace. -/
def effectCount (k : Nat) (tr : List Event) : Nat := tr.countP (isEffectCallOf k)

/-- How many times activation `k`'s custom cleanup ran. -/
def customCount (k : Nat) (tr : List Event) : Nat := tr.countP (isCustomOf k)

/-- How many times activation `k`'s default `abort()` teardown ran. -/
def defaultCount (k : Nat) (tr : List Event) : Nat := tr.countP (isDefaultOf k)

/-- How many teardowns (of either kind) ran for activation `k`. -/
def teardownCount (k : Nat) (tr : List Event) : Nat := customCount k tr + defaultCount k tr

/-! ### Basic lemmas about the store and the canonical traces -/

theorem modifyIdx_length {α : Type} (l : List α) (i : Nat) (f : α → α) :
    (modifyIdx l i f).length = l.length := by
  induction l generalizing i with
  | nil => rfl
  | cons a as ih =>
      cases i with
      | zero => rfl
      | succ n => simpa [modifyIdx] using ih n

theorem modifyIdx_getElem?_ne {α : Type} (l : List α) (i j : Nat) (f : α → α) (h : j ≠ i) :
    (modifyIdx l i f)[j]? = l[j]? := by
  induction l generalizing i j with
  | nil => rfl
  | cons a as ih =>
      cases i with
      | zero =>
          cases j with
          | zero => exact absurd rfl h
          | succ m => simp [modifyIdx]
      | succ n =>
          cases j with
          | zero => simp [modifyIdx]
          | succ m =>
              have : m ≠ n := fun hc => h (by simp [hc])
              simpa [modifyIdx] using ih n m this

theorem modifyIdx_getElem?_eq {α : Type} (l : List α) (i : Nat) (f : α → α) :
    (modifyIdx l i f)[i]? = (l[i]?).map f := by
  induction l generalizing i with
  | nil => rfl
  | cons a as ih =>
      cases i with
      | zero => simp [modifyIdx]
      | succ n => simpa [modifyIdx] using ih n

theorem modifyIdx_forall {α : Type} {P : α → Prop} (l : List α) (i : Nat) (f : α → α)
    (hl : ∀ a ∈ l, P a) (hf : ∀ a, P a → P (f a)) :
    ∀ a ∈ modifyIdx l i f, P a := by
  induction l generalizing i with
  | nil => intro a ha; cases ha
  | cons b bs ih =>
      cases i with
      | zero =>
          intro a ha
          rcases List.mem_cons.mp ha with h | h
          · exact h ▸ hf b (hl b (List.mem_cons_self b bs))
          · exact hl a (List.mem_cons_of_mem b h)
      | succ n =>
          intro a ha
          rcases List.mem_cons.mp ha with h | h
          · exact h ▸ hl b (List.mem_cons_self b bs)
          · exact ih n (fun x hx => hl x (List.mem_cons_of_mem b hx)) a h

theorem abortCtrlState_aborted_mono (c : CtrlState) (h : c.aborted = true) :
    abortCtrlState c = c := by
  unfold abortCtrlState
  by_cases hm : c.isMock <;> simp [hm, h]

theorem abortCtrlState_isMock (c : CtrlState) : (abortCtrlState c).isMock = c.isMock := by
  unfold abortCtrlState
  by_cases hm : c.isMock <;> by_cases ha : c.aborted <;> simp [hm, ha]

theorem abortCtrlState_notified (c : CtrlState)
    (h : c.notified = if c.aborted then 1 else 0) :
    (abortCtrlState c).notified = if (abortCtrlState c).aborted then 1 else 0 := by
  unfold abortCtrlState
  by_cases hm : c.isMock <;> by_cases ha : c.aborted <;> simp [hm, ha] <;> simp [ha] at h <;> exact h

theorem isEffectCallOf_tdEvent (ue : UserEffect) (k j : Nat) :
    isEffectCallOf k (tdEvent ue j) = false := by
  unfold tdEvent
  by_cases h : ue.returnsFn j <;> simp [h, isEffectCallOf]

theorem isCustomOf_tdEvent (ue : UserEffect) (k j : Nat) :
    isCustomOf k (tdEvent ue j) = (ue.returnsFn j && j == k) := by
  unfold tdEvent
  by_cases h : ue.returnsFn j <;> simp [h, isCustomOf]

theorem isDefaultOf_tdEvent (ue : UserEffect) (k j : Nat) :
    isDefaultOf k (tdEvent ue j) = (!ue.returnsFn j && j == k) := by
  unfold tdEvent
  by_cases h : ue.returnsFn j <;> simp [h, isDefaultOf]

theorem traceUpTo_succ (ue : UserEffect) (n : Nat) :
    traceUpTo ue (n + 1)
      = traceUpTo ue n
          ++ (match n with
              | 0 => []
              | j + 1 => [tdEvent ue j])
          ++ [Event.effectCall n ⟨n⟩] := rfl

theorem effectCount_traceUpTo (ue : UserEffect) (k n : Nat) :
    effectCount k (traceUpTo ue n) = if k < n then 1 else 0 := by
  induction n with
  | zero => simp [traceUpTo, effectCount]
  | succ m ih =>
      unfold effectCount at ih ⊢
      rw [traceUpTo_succ, List.countP_append, List.countP_append, ih]
      have hlast : List.countP (isEffectCallOf k) [Event.effectCall m ⟨m⟩]
          = if m = k then 1 else 0 := by
        simp [List.countP_cons, isEffectCallOf]
      rw [hlast]
      cases m with
      | zero =>
          simp only [List.countP_nil]
          split_ifs <;> omega
      | succ j =>
          have hmid : List.countP (isEffectCallOf k) [tdEvent ue j] = 0 := by
            simp [List.countP_cons, isEffectCallOf_tdEvent]
          rw [hmid]
          split_ifs <;> omega

theorem customCount_traceUpTo (ue : UserEffect) (k n : Nat) :
    customCount k (traceUpTo ue n)
      = if ue.returnsFn k = true then (if k + 1 < n then 1 else 0) else 0 := by
  induction n with
  | zero => simp [traceUpTo, customCount]
  | succ m ih =>
      unfold customCount at ih ⊢
      rw [traceUpTo_succ, List.countP_append, List.countP_append, ih]
      have hlast : List.countP (isCustomOf k) [Event.effectCall m ⟨m⟩] = 0 := by
        simp [List.countP_cons, isCustomOf]
      rw [hlast]
      cases m with
      | zero =>
          by_cases h3 : ue.returnsFn k <;> simp [List.countP_nil, h3]
      | succ j =>
          have hmid : List.countP (isCustomOf k) [tdEvent ue j]
              = if ue.returnsFn j = true then (if j = k then 1 else 0) else 0 := by
            simp only [List.countP_cons, List.countP_nil, isCustomOf_tdEvent]
            by_cases h1 : ue.returnsFn j <;> by_cases h2 : j = k <;> simp [h1, h2]
          rw [hmid]
          by_cases h2 : j = k
          · subst h2
            by_cases h1 : ue.returnsFn j = true <;>
              simp only [h1, eq_self_iff_true, if_true, if_false] <;>
              (try split_ifs) <;> omega
          · by_cases h3 : ue.returnsFn k = true <;> by_cases h1 : ue.returnsFn j = true <;>
              simp only [h1, h3, h2, eq_self_iff_true, if_true, if_false] <;>
              (try split_ifs) <;> omega

theorem defaultCount_traceUpTo (ue : UserEffect) (k n : Nat) :
    defaultCount k (traceUpTo ue n)
      = if ue.returnsFn k = false then (if k + 1 < n then 1 else 0) else 0 := by
  induction n with
  | zero => simp [traceUpTo, defaultCount]
  | succ m ih =>
      unfold defaultCount at ih ⊢
      rw [traceUpTo_succ, List.countP_append, List.countP_append, ih]
      have hlast : List.countP (isDefaultOf k) [Event.effectCall m ⟨m⟩] = 0 := by
        simp [List.countP_cons, isDefaultOf]
      rw [hlast]
      cases m with
      | zero =>
          by_cases h3 : ue.returnsFn k <;> simp [List.countP_nil, h3]
      | succ j =>
          have hmid : List.countP (isDefaultOf k) [tdEvent ue j]
              = if ue.returnsFn j = false then (if j = k then 1 else 0) else 0 := by
            simp only [List.countP_cons, List.countP_nil, isDefaultOf_tdEvent]
            by_cases h1 : ue.returnsFn j <;> by_cases h2 : j = k <;> simp [h1, h2]
          rw [hmid]
          by_cases h2 : j = k
          · subst h2
            by_cases h1 : ue.returnsFn j = false <;>
              simp only [h1, eq_self_iff_true, if_true, if_false] <;>
              (try split_ifs) <;> omega
          · by_cases h3 : ue.returnsFn k = false <;> by_cases h1 : ue.returnsFn j = false <;>
              simp only [h1, h3, h2, eq_self_iff_true, if_true, if_false] <;>
              (try split_ifs) <;> omega

theorem effectCount_fullTrace (ue : UserEffect) (k act : Nat) (b : Bool) :
    effectCount k (fullTrace ue act b) = if k < act then 1 else 0 := by
  cases act with
  | zero => cases b <;> simp [fullTrace, effectCount]
  | succ m =>
      cases b with
      | true => simpa [fullTrace] using effectCount_traceUpTo ue k (m + 1)
      | false =>
          unfold fullTrace effectCount
          rw [List.countP_append]
          have h2 : List.countP (isEffectCallOf k) [tdEvent ue m] = 0 := by
            simp [List.countP_cons, isEffectCallOf_tdEvent]
          rw [h2]
          simpa using effectCount_traceUpTo ue k (m + 1)

theorem customCount_fullTrace (ue : UserEffect) (k act : Nat) (b : Bool) :
    customCount k (fullTrace ue act b)
      = if ue.returnsFn k = true then
          (if k + 1 < act ∨ (k + 1 = act ∧ b = false) then 1 else 0)
        else 0 := by
  cases act with
  | zero =>
      cases b <;> by_cases h3 : ue.returnsFn k = true <;> simp [fullTrace, customCount, h3]
  | succ m =>
      cases b with
      | true =>
          rw [show fullTrace ue (m + 1) true = traceUpTo ue (m + 1) from rfl,
            customCount_traceUpTo]
          by_cases h3 : ue.returnsFn k = true <;>
            simp only [h3, eq_self_iff_true, if_true, if_false] <;>
            (try split_ifs) <;> simp_all <;> omega
      | false =>
          rw [show fullTrace ue (m + 1) false = traceUpTo ue (m + 1) ++ [tdEvent ue m] from rfl]
          unfold customCount
          rw [List.countP_append]
          have h2 : List.countP (isCustomOf k) [tdEvent ue m]
              = if ue.returnsFn m = true then (if m = k then 1 else 0) else 0 := by
            simp only [List.countP_cons, List.countP_nil, isCustomOf_tdEvent]
            by_cases h1 : ue.returnsFn m <;> by_cases hmk : m = k <;> simp [h1, hmk]
          rw [h2, show List.countP (isCustomOf k) (traceUpTo ue (m + 1))
              = customCount k (traceUpTo ue (m + 1)) from rfl, customCount_traceUpTo]
          by_cases hmk : m = k
          · subst hmk
            by_cases h1 : ue.returnsFn m = true <;>
              simp only [h1, eq_self_iff_true, if_true, if_false] <;>
              (try split_ifs) <;> simp_all <;> omega
          · by_cases h3 : ue.returnsFn k = true <;> by_cases h1 : ue.returnsFn m = true <;>
              simp only [h1, h3, hmk, eq_self_iff_true, if_true, if_false] <;>
              (try split_ifs) <;> simp_all <;> omega

theorem defaultCount_fullTrace (ue : UserEffect) (k act : Nat) (b : Bool) :
    defaultCount k (fullTrace ue act b)
      = if ue.returnsFn k = false then
          (if k + 1 < act ∨ (k + 1 = act ∧ b = false) then 1 else 0)
        else 0 := by
  cases act with
  | zero =>
      cases b <;> by_cases h3 : ue.returnsFn k = false <;> simp [fullTrace, defaultCount, h3]
  | succ m =>
      cases b with
      | true =>
          rw [show fullTrace ue (m + 1) true = traceUpTo ue (m + 1) from rfl,
            defaultCount_traceUpTo]
          by_cases h3 : ue.returnsFn k = false <;>
            simp only [h3, eq_self_iff_true, if_true, if_false] <;>
            (try split_ifs) <;> simp_all <;> omega
      | false =>
          rw [show fullTrace ue (m + 1) false = traceUpTo ue (m + 1) ++ [tdEvent ue m] from rfl]
          unfold defaultCount
          rw [List.countP_append]
          have h2 : List.countP (isDefaultOf k) [tdEvent ue m]
              = if ue.returnsFn m = false then (if m = k then 1 else 0) else 0 := by
            simp only [List.countP_cons, List.countP_nil, isDefaultOf_tdEvent]
            by_cases h1 : ue.returnsFn m <;> by_cases hmk : m = k <;> simp [h1, hmk]
          rw [h2, show List.countP (isDefaultOf k) (traceUpTo ue (m + 1))
              = defaultCount k (traceUpTo ue (m + 1)) from rfl, defaultCount_traceUpTo]
          by_cases hmk : m = k
          · subst hmk
            by_cases h1 : ue.returnsFn m = false <;>
              simp only [h1, eq_self_iff_true, if_true, if_false] <;>
              (try split_ifs) <;> simp_all <;> omega
          · by_cases h3 : ue.returnsFn k = false <;> by_cases h1 : ue.returnsFn m = false <;>
              simp only [h1, h3, hmk, eq_self_iff_true, if_true, if_false] <;>
              (try split_ifs) <;> simp_all <;> omega

theorem teardownCount_fullTrace (ue : UserEffect) (k act : Nat) (b : Bool) :
    teardownCount k (fullTrace ue act b)
      = if k + 1 < act ∨ (k + 1 = act ∧ b = false) then 1 else 0 := by
  unfold teardownCount
  rw [customCount_fullTrace, defaultCount_fullTrace]
  by_cases h3 : ue.returnsFn k = true
  · have h4 : ¬(ue.returnsFn k = false) := by simp [h3]
    simp [h3, h4]
  · have h4 : ue.returnsFn k = false := by
      cases h : ue.returnsFn k
      · rfl
      · exact absurd h h3
    simp [h3, h4]

theorem mem_traceUpTo (ue : UserEffect) (n : Nat) :
    ∀ e ∈ traceUpTo ue n,
      (∃ k, k < n ∧ e = Event.effectCall k ⟨k⟩) ∨ (∃ k, k + 1 < n ∧ e = tdEvent ue k) := by
  induction n with
  | zero => intro e he; cases he
  | succ m ih =>
      intro e he
      rw [traceUpTo_succ] at he
      rcases List.mem_append.mp he with he1 | he2
      · rcases List.mem_append.mp he1 with he3 | he4
        · rcases ih e he3 with ⟨k, hk, rfl⟩ | ⟨k, hk, rfl⟩
          · exact Or.inl ⟨k, Nat.lt_succ_of_lt hk, rfl⟩
          · exact Or.inr ⟨k, Nat.lt_succ_of_lt hk, rfl⟩
        · cases m with
          | zero => cases he4
          | succ j =>
              rcases List.mem_singleton.mp he4 with rfl
              exact Or.inr ⟨j, by omega, rfl⟩
      · rcases List.mem_singleton.mp he2 with rfl
        exact Or.inl ⟨m, Nat.lt_succ_self m, rfl⟩

theorem effectCall_mem_traceUpTo (ue : UserEffect) {k n : Nat} (h : k < n) :
    Event.effectCall k ⟨k⟩ ∈ traceUpTo ue n := by
  induction n with
  | zero => omega
  | succ m ih =>
      rw [traceUpTo_succ]
      by_cases hk : k = m
      · subst hk
        exact List.mem_append.mpr (Or.inr (List.mem_singleton.mpr rfl))
      · exact List.mem_append.mpr
          (Or.inl (List.mem_append.mpr (Or.inl (ih (by omega)))))

theorem mem_fullTrace (ue : UserEffect) (act : Nat) (b : Bool) :
    ∀ e ∈ fullTrace ue act b,
      (∃ k, k < act ∧ e = Event.effectCall k ⟨k⟩)
        ∨ (∃ k, (k + 1 < act ∨ (k + 1 = act ∧ b = false)) ∧ e = tdEvent ue k) := by
  cases act with
  | zero => cases b <;> (intro e he; cases he)
  | succ m =>
      cases b with
      | true =>
          intro e he
          rcases mem_traceUpTo ue (m + 1) e he with ⟨k, hk, rfl⟩ | ⟨k, hk, rfl⟩
          · exact Or.inl ⟨k, hk, rfl⟩
          · exact Or.inr ⟨k, Or.inl hk, rfl⟩
      | false =>
          intro e he
          rcases List.mem_append.mp he with he1 | he2
          · rcases mem_traceUpTo ue (m + 1) e he1 with ⟨k, hk, rfl⟩ | ⟨k, hk, rfl⟩
            · exact Or.inl ⟨k, hk, rfl⟩
            · exact Or.inr ⟨k, Or.inl hk, rfl⟩
          · rcases List.mem_singleton.mp he2 with rfl
            exact Or.inr ⟨m, Or.inr ⟨rfl, rfl⟩, rfl⟩

theorem effectCall_mem_fullTrace (ue : UserEffect) {k act : Nat} (b : Bool) (h : k < act) :
    Event.effectCall k ⟨k⟩ ∈ fullTrace ue act b := by
  cases act with
  | zero => omega
  | succ m =>
      cases b with
      | true => exact effectCall_mem_traceUpTo ue h
      | false =>
          exact List.mem_append.mpr (Or.inl (effectCall_mem_traceUpTo ue h))

theorem tdEvent_eq_customCleanup {ue : UserEffect} {j k c : Nat}
    (h : tdEvent ue j = Event.customCleanup k c) :
    j = k ∧ c = j ∧ ue.returnsFn j = true := by
  unfold tdEvent at h
  by_cases hr : ue.returnsFn j <;> simp [hr] at h
  exact ⟨h.1, h.2.symm, hr⟩

theorem tdEvent_eq_defaultAbort {ue : UserEffect} {j k c : Nat}
    (h : tdEvent ue j = Event.defaultAbort k c) :
    j = k ∧ c = j ∧ ue.returnsFn j = false := by
  unfold tdEvent at h
  by_cases hr : ue.returnsFn j <;> simp [hr] at h
  exact ⟨h.1, h.2.symm, by simp [hr]⟩

/-! ### Characterisation of the individual steps on reachable-shaped states -/

theorem renderStep_unmounted (ue : UserEffect) (deps : Option (List JSVal)) (s : Sim)
    (hm : s.mounted = false) : renderStep ue deps s = s := by
  unfold renderStep
  simp [hm]

theorem unmountStep_unmounted (ue : UserEffect) (s : Sim)
    (hm : s.mounted = false) : unmountStep ue s = s := by
  unfold unmountStep
  simp [hm]

theorem renderStep_first (ue : UserEffect) (deps : Option (List JSVal)) (s : Sim)
    (hm : s.mounted = true) (href : s.controllerRef = none) (hctrls : s.ctrls = [])
    (hfr : s.firstRun = true) (hpd : s.prevDeps = none) (hpc : s.pendingCleanup = none)
    (htr : s.trace = []) (ha : s.activations = 0) :
    renderStep ue deps s =
      { s with ctrls := [createAbortController s.envHasAC], firstRun := false,
               controllerRef := some 0, prevDeps := some deps,
               pendingCleanup := some (mkCleanup ue 0),
               trace := [Event.effectCall 0 ⟨0⟩], activations := 1 } := by
  obtain ⟨env, ctrls, fr, ref, m, pd, pc, tr, act⟩ := s
  simp only at hm href hctrls hfr hpd hpc htr ha
  subst hm href hctrls hfr hpd hpc htr ha
  simp [renderStep, shouldRunEffect, runCleanup, mkCleanup]

theorem renderStep_skip (ue : UserEffect) (deps : Option (List JSVal)) (s : Sim)
    (hm : s.mounted = true) (i : Nat) (href : s.controllerRef = some i)
    (hrun : shouldRunEffect deps s = false) :
    renderStep ue deps s = { s with prevDeps := some deps } := by
  obtain ⟨env, ctrls, fr, ref, m, pd, pc, tr, act⟩ := s
  simp only at hm href
  subst hm href
  simp only [renderStep]
  simp [hrun]

theorem renderStep_reactivate (ue : UserEffect) (deps : Option (List JSVal)) (s : Sim)
    (k : Nat) (hm : s.mounted = true) (href : s.controllerRef = some k)
    (hlen : s.ctrls.length = k + 1) (hfr : s.firstRun = false)
    (ha : s.activations = k + 1) (hpc : s.pendingCleanup = some (mkCleanup ue k))
    (hrun : shouldRunEffect deps s = true) :
    renderStep ue deps s =
      { s with ctrls := teardownCtrls ue k s.ctrls ++ [createAbortController s.envHasAC],
               controllerRef := some (k + 1), prevDeps := some deps,
               pendingCleanup := some (mkCleanup ue (k + 1)),
               trace := s.trace ++ [tdEvent ue k, Event.effectCall (k + 1) ⟨k + 1⟩],
               activations := k + 2 } := by
  obtain ⟨env, ctrls, fr, ref, m, pd, pc, tr, act⟩ := s
  simp only at hm href hlen hfr ha hpc
  subst hm href hfr ha hpc
  simp only [renderStep]
  simp only [hrun, if_true]
  unfold mkCleanup runCleanup teardownCtrls tdEvent
  by_cases hr : ue.returnsFn k = true <;>
    by_cases hca : ue.cleanupCallsAbort k = true <;>
      simp [hr, hca, modifyIdx_length, hlen, mkCleanup]

theorem unmountStep_pending (ue : UserEffect) (s : Sim) (k : Nat)
    (hm : s.mounted = true) (hpc : s.pendingCleanup = some (mkCleanup ue k)) :
    unmountStep ue s =
      { s with ctrls := teardownCtrls ue k s.ctrls, pendingCleanup := none,
               mounted := false, trace := s.trace ++ [tdEvent ue k] } := by
  obtain ⟨env, ctrls, fr, ref, m, pd, pc, tr, act⟩ := s
  simp only at hm hpc
  subst hm hpc
  simp only [unmountStep]
  unfold mkCleanup runCleanup teardownCtrls tdEvent
  by_cases hr : ue.returnsFn k = true <;>
    by_cases hca : ue.cleanupCallsAbort k = true <;>
      simp [hr, hca]

theorem unmountStep_noPending (ue : UserEffect) (s : Sim)
    (hm : s.mounted = true) (hpc : s.pendingCleanup = none) :
    unmountStep ue s = { s with mounted := false } := by
  obtain ⟨env, ctrls, fr, ref, m, pd, pc, tr, act⟩ := s
  simp only at hm hpc
  subst hm hpc
  simp [unmountStep, runCleanup]

theorem externalAbort_none (s : Sim) (href : s.controllerRef = none) :
    externalAbort s = s := by
  unfold externalAbort
  rw [href]

theorem externalAbort_some (s : Sim) (i : Nat) (href : s.controllerRef = some i) :
    externalAbort s = { s with ctrls := modifyIdx s.ctrls i abortCtrlState } := by
  unfold externalAbort
  rw [href]

/-! ### The reachability invariant -/

/-- Healthiness of one stored controller: it is native exactly when the
environment has `AbortController`, its listeners have been notified exactly
once if and only if it is aborted, and a mock controller never reports
aborted. -/
def CtrlOk (env : Bool) (c : CtrlState) : Prop :=
  c.isMock = !env ∧ c.notified = (if c.aborted then 1 else 0) ∧
    (c.isMock = true → c.aborted = false)

theorem CtrlOk_create (env : Bool) : CtrlOk env (createAbortController env) := by
  refine ⟨rfl, rfl, fun _ => rfl⟩

theorem CtrlOk_abort {env : Bool} {c : CtrlState} (h : CtrlOk env c) :
    CtrlOk env (abortCtrlState c) := by
  obtain ⟨h1, h2, h3⟩ := h
  refine ⟨by rw [abortCtrlState_isMock, h1], abortCtrlState_notified c h2, ?_⟩
  intro hm
  rw [abortCtrlState_isMock] at hm
  have : abortCtrlState c = c := by unfold abortCtrlState; simp [hm]
  rw [this]
  exact h3 hm

theorem teardownCtrls_length (ue : UserEffect) (k : Nat) (l : List CtrlState) :
    (teardownCtrls ue k l).length = l.length := by
  unfold teardownCtrls
  split
  · rfl
  · exact modifyIdx_length l k abortCtrlState

theorem teardownCtrls_getElem?_ne (ue : UserEffect) (k i : Nat) (l : List CtrlState)
    (h : i ≠ k) : (teardownCtrls ue k l)[i]? = l[i]? := by
  unfold teardownCtrls
  split
  · rfl
  · exact modifyIdx_getElem?_ne l k i abortCtrlState h

theorem teardownCtrls_forall {P : CtrlState → Prop} (ue : UserEffect) (k : Nat)
    (l : List CtrlState) (hl : ∀ c ∈ l, P c) (hf : ∀ c, P c → P (abortCtrlState c)) :
    ∀ c ∈ teardownCtrls ue k l, P c := by
  unfold teardownCtrls
  split
  · exact hl
  · exact modifyIdx_forall l k abortCtrlState hl hf

theorem getElem?_append_some {α : Type} {l l' : List α} {i : Nat} {a : α}
    (h : l[i]? = some a) : (l ++ l')[i]? = some a := by
  induction l generalizing i with
  | nil => simp at h
  | cons b bs ih =>
      cases i with
      | zero => simpa using h
      | succ n =>
          simp only [List.cons_append, List.getElem?_cons_succ] at h ⊢
          exact ih h

theorem modifyIdx_getElem?_some {α : Type} {l : List α} {i : Nat} {a : α}
    (j : Nat) (f : α → α) (h : l[i]? = some a) :
    ∃ a', (modifyIdx l j f)[i]? = some a' ∧ (a' = a ∨ a' = f a) := by
  by_cases hij : i = j
  · subst hij
    refine ⟨f a, ?_, Or.inr rfl⟩
    rw [modifyIdx_getElem?_eq, h]
    rfl
  · exact ⟨a, by rw [modifyIdx_getElem?_ne l j i f hij, h], Or.inl rfl⟩

/-- Invariant of every reachable `Sim` state: the store has one controller
per activation (the controller of activation `k` sits at index `k`),
`firstRun` tracks whether any activation ran, the ref points at the latest
controller, the registered teardown (if any) belongs to the latest
activation, the trace has the canonical shape, every stored controller is
healthy, and superseded default-path controllers are aborted. -/
structure Inv (ue : UserEffect) (env : Bool) (s : Sim) : Prop where
  envEq : s.envHasAC = env
  lenActs : s.ctrls.length = s.activations
  firstAct : s.firstRun = decide (s.activations = 0)
  refEq : s.controllerRef = if s.activations = 0 then none else some (s.activations - 1)
  actPrev : s.activations = 0 → s.prevDeps = none
  prevAct : s.prevDeps = none → s.activations = 0
  pendZero : s.activations = 0 → s.pendingCleanup = none
  pendUn : s.mounted = false → s.pendingCleanup = none
  mountPend : s.mounted = true → ∀ k, s.activations = k + 1 →
      s.pendingCleanup = some (mkCleanup ue k)
  traceEq : s.trace = fullTrace ue s.activations s.pendingCleanup.isSome
  ctrlsOk : ∀ c ∈ s.ctrls, CtrlOk env c
  oldAborted : env = true → ∀ i, i + 1 < s.activations → ue.returnsFn i = false →
      ∃ c, s.ctrls[i]? = some c ∧ c.aborted = true

theorem inv_init (ue : UserEffect) (env : Bool) : Inv ue env (initSim env) := by
  refine ⟨rfl, rfl, rfl, rfl, fun _ => rfl, fun _ => rfl, fun _ => rfl,
    fun h => rfl, ?_, rfl, ?_, ?_⟩
  · intro h k hk
    simp [initSim] at hk
  · intro c hc
    simp [initSim] at hc
  · intro _ i hi
    simp [initSim] at hi

theorem abortCtrlState_aborted_of_native {c : CtrlState} (h : c.isMock = false) :
    (abortCtrlState c).aborted = true := by
  unfold abortCtrlState
  by_cases ha : c.aborted <;> simp [h, ha]

theorem inv_externalAbort (ue : UserEffect) (env : Bool) (s : Sim) (h : Inv ue env s) :
    Inv ue env (externalAbort s) := by
  cases href : s.controllerRef with
  | none => rw [externalAbort_none s href]; exact h
  | some i =>
      rw [externalAbort_some s i href]
      obtain ⟨envEq, lenActs, firstAct, refEq, actPrev, prevAct, pendZero, pendUn,
        mountPend, traceEq, ctrlsOk, oldAborted⟩ := h
      refine ⟨envEq, ?_, firstAct, refEq, actPrev, prevAct, pendZero, pendUn,
        mountPend, traceEq, ?_, ?_⟩
      · simpa [modifyIdx_length] using lenActs
      · exact modifyIdx_forall _ _ _ ctrlsOk (fun c hc => CtrlOk_abort hc)
      · intro henv j hj hret
        obtain ⟨c, hc, hab⟩ := oldAborted henv j hj hret
        obtain ⟨c', hc', hco⟩ := modifyIdx_getElem?_some i abortCtrlState hc
        refine ⟨c', hc', ?_⟩
        rcases hco with rfl | rfl
        · exact hab
        · rw [abortCtrlState_aborted_mono c hab]; exact hab

theorem inv_unmountStep (ue : UserEffect) (env : Bool) (s : Sim) (h : Inv ue env s) :
    Inv ue env (unmountStep ue s) := by
  cases hm : s.mounted with
  | false => rw [unmountStep_unmounted ue s hm]; exact h
  | true =>
      obtain ⟨envEq, lenActs, firstAct, refEq, actPrev, prevAct, pendZero, pendUn,
        mountPend, traceEq, ctrlsOk, oldAborted⟩ := h
      cases ha : s.activations with
      | zero =>
          have hpc : s.pendingCleanup = none := pendZero ha
          rw [unmountStep_noPending ue s hm hpc]
          refine ⟨envEq, lenActs, firstAct, refEq, actPrev, prevAct,
            fun _ => hpc, fun _ => hpc, ?_, traceEq, ctrlsOk, oldAborted⟩
          intro hmm
          simp at hmm
      | succ k =>
          have hpc : s.pendingCleanup = some (mkCleanup ue k) := mountPend hm k ha
          rw [unmountStep_pending ue s k hm hpc]
          refine ⟨envEq, ?_, firstAct, refEq, actPrev, prevAct, ?_, fun _ => rfl,
            ?_, ?_, ?_, ?_⟩
          · simpa [teardownCtrls_length] using lenActs
          · intro _
            rfl
          · intro hmm
            simp at hmm
          · show s.trace ++ [tdEvent ue k] = fullTrace ue s.activations (Option.isSome none)
            rw [traceEq, ha, hpc]
            rfl
          · exact teardownCtrls_forall ue k s.ctrls ctrlsOk (fun c hc => CtrlOk_abort hc)
          · intro henv j hj hret
            simp only at hj
            obtain ⟨c, hc, hab⟩ := oldAborted henv j hj hret
            have hjk : j ≠ k := by omega
            exact ⟨c, by rw [teardownCtrls_getElem?_ne ue k j s.ctrls hjk]; exact hc, hab⟩

theorem inv_renderStep (ue : UserEffect) (env : Bool) (deps : Option (List JSVal))
    (s : Sim) (h : Inv ue env s) : Inv ue env (renderStep ue deps s) := by
  cases hm : s.mounted with
  | false => rw [renderStep_unmounted ue deps s hm]; exact h
  | true =>
      obtain ⟨envEq, lenActs, firstAct, refEq, actPrev, prevAct, pendZero, pendUn,
        mountPend, traceEq, ctrlsOk, oldAborted⟩ := h
      cases ha : s.activations with
      | zero =>
          have href : s.controllerRef = none := by rw [refEq, ha]; rfl
          have hctrls : s.ctrls = [] := by
            rw [← List.length_eq_zero]
            rw [lenActs, ha]
          have hfr : s.firstRun = true := by rw [firstAct, ha]; rfl
          have hpd : s.prevDeps = none := actPrev ha
          have hpc : s.pendingCleanup = none := pendZero ha
          have htr : s.trace = [] := by rw [traceEq, ha]; rfl
          rw [renderStep_first ue deps s hm href hctrls hfr hpd hpc htr ha]
          refine ⟨envEq, rfl, rfl, by simp, ?_, ?_, ?_, ?_, ?_, ?_, ?_, ?_⟩
          · intro h0; simp only at h0; cases h0
          · intro h0; simp only at h0; cases h0
          · intro h0; simp only at h0; cases h0
          · intro hmm; simp only at hmm; rw [hm] at hmm; cases hmm
          · intro _ k' hk'
            simp only at hk'
            have : k' = 0 := by omega
            subst this
            rfl
          · show [Event.effectCall 0 ⟨0⟩]
              = fullTrace ue 1 (Option.isSome (some (mkCleanup ue 0)))
            rfl
          · intro c hc
            simp only [List.mem_singleton] at hc
            subst hc
            rw [envEq]
            exact CtrlOk_create env
          · intro _ j hj
            simp only at hj
            omega
      | succ k =>
          have href : s.controllerRef = some k := by rw [refEq, ha]; rfl
          have hfr : s.firstRun = false := by rw [firstAct, ha]; rfl
          have hpc : s.pendingCleanup = some (mkCleanup ue k) := mountPend hm k ha
          have hlen : s.ctrls.length = k + 1 := by rw [lenActs, ha]
          cases hrun : shouldRunEffect deps s with
          | false =>
              rw [renderStep_skip ue deps s hm k href hrun]
              refine ⟨envEq, lenActs, firstAct, refEq, ?_, ?_, pendZero, pendUn,
                mountPend, traceEq, ctrlsOk, oldAborted⟩
              · intro h0
                simp only at h0
                rw [h0] at ha
                cases ha
              · intro h0; simp only at h0; cases h0
          | true =>
              rw [renderStep_reactivate ue deps s k hm href hlen hfr ha hpc hrun]
              refine ⟨envEq, ?_, ?_, ?_, ?_, ?_, ?_, ?_, ?_, ?_, ?_, ?_⟩
              · simp [teardownCtrls_length, hlen]
              · simp only
                rw [hfr]
                rfl
              · simp
              · intro h0; simp only at h0; cases h0
              · intro h0; simp only at h0; cases h0
              · intro h0; simp only at h0; cases h0
              · intro hmm; simp only at hmm; rw [hm] at hmm; cases hmm
              · intro _ k' hk'
                simp only at hk'
                have : k' = k + 1 := by omega
                subst this
                rfl
              · show s.trace ++ [tdEvent ue k, Event.effectCall (k + 1) ⟨k + 1⟩]
                  = fullTrace ue (k + 2) (Option.isSome (some (mkCleanup ue (k + 1))))
                rw [traceEq, ha, hpc]
                show traceUpTo ue (k + 1) ++ [tdEvent ue k, Event.effectCall (k + 1) ⟨k + 1⟩]
                  = traceUpTo ue (k + 2)
                rw [traceUpTo_succ ue (k + 1)]
                simp
              · intro c hc
                rcases List.mem_append.mp hc with hc1 | hc2
                · exact teardownCtrls_forall ue k s.ctrls ctrlsOk
                    (fun c' hc' => CtrlOk_abort hc') c hc1
                · simp only [List.mem_singleton] at hc2
                  subst hc2
                  rw [envEq]
                  exact CtrlOk_create env
              · intro henv j hj hret
                simp only at hj
                by_cases hjk : j = k
                · subst hjk
                  have hj0 : ∃ c0, s.ctrls[j]? = some c0 := by
                    rw [List.getElem?_eq_getElem (by omega)]
                    exact ⟨_, rfl⟩
                  obtain ⟨c0, hj0⟩ := hj0
                  have hmem : c0 ∈ s.ctrls := List.getElem?_mem hj0
                  have hok := ctrlsOk c0 hmem
                  have hmock : c0.isMock = false := by
                    rw [hok.1, henv]
                    rfl
                  have htd : teardownCtrls ue j s.ctrls
                      = modifyIdx s.ctrls j abortCtrlState := by
                    unfold teardownCtrls
                    rw [if_neg]
                    intro hcon
                    rw [hret] at hcon
                    cases hcon.1
                  refine ⟨abortCtrlState c0, ?_, abortCtrlState_aborted_of_native hmock⟩
                  apply getElem?_append_some
                  rw [htd, modifyIdx_getElem?_eq, hj0]
                  rfl
                · have hj' : j + 1 < s.activations := by omega
                  obtain ⟨c, hc, hab⟩ := oldAborted henv j hj' hret
                  refine ⟨c, ?_, hab⟩
                  apply getElem?_append_some
                  rw [teardownCtrls_getElem?_ne ue k j s.ctrls hjk]
                  exact hc

theorem inv_runStep (ue : UserEffect) (env : Bool) (s : Sim) (st : Step)
    (h : Inv ue env s) : Inv ue env (runStep ue s st) := by
  cases st with
  | render deps => exact inv_renderStep ue env deps s h
  | unmount => exact inv_unmountStep ue env s h
  | extAbort => exact inv_externalAbort ue env s h

theorem inv_foldl (ue : UserEffect) (env : Bool) (steps : List Step) :
    ∀ s, Inv ue env s → Inv ue env (steps.foldl (runStep ue) s) := by
  induction steps with
  | nil => intro s hs; exact hs
  | cons st rest ih => intro s hs; exact ih _ (inv_runStep ue env s st hs)

theorem inv_runSteps (ue : UserEffect) (env : Bool) (steps : List Step) :
    Inv ue env (runSteps ue env steps) :=
  inv_foldl ue env steps (initSim env) (inv_init ue env)

theorem teardownCtrls_getElem?_some (ue : UserEffect) (k : Nat) {l : List CtrlState}
    {i : Nat} {c : CtrlState} (h : l[i]? = some c) :
    ∃ c', (teardownCtrls ue k l)[i]? = some c' ∧ (c' = c ∨ c' = abortCtrlState c) := by
  unfold teardownCtrls
  split
  · exact ⟨c, h, Or.inl rfl⟩
  · exact modifyIdx_getElem?_some k abortCtrlState h

theorem abortedTrue_of_variant {c c' : CtrlState} (hco : c' = c ∨ c' = abortCtrlState c)
    (hab : c.aborted = true) : c'.aborted = true := by
  rcases hco with rfl | rfl
  · exact hab
  · rw [abortCtrlState_aborted_mono c hab]
    exact hab

theorem runStep_ctrls_mono (ue : UserEffect) (env : Bool) (s : Sim) (st : Step)
    (hInv : Inv ue env s) (i : Nat) (c : CtrlState) (h : s.ctrls[i]? = some c) :
    ∃ c', (runStep ue s st).ctrls[i]? = some c'
      ∧ (c.aborted = true → c'.aborted = true) := by
  cases st with
  | extAbort =>
      cases href : s.controllerRef with
      | none =>
          rw [show runStep ue s Step.extAbort = externalAbort s from rfl,
            externalAbort_none s href]
          exact ⟨c, h, fun hab => hab⟩
      | some j =>
          rw [show runStep ue s Step.extAbort = externalAbort s from rfl,
            externalAbort_some s j href]
          obtain ⟨c', hc', hco⟩ := modifyIdx_getElem?_some j abortCtrlState h
          exact ⟨c', hc', fun hab => abortedTrue_of_variant hco hab⟩
  | unmount =>
      cases hm : s.mounted with
      | false =>
          rw [show runStep ue s Step.unmount = unmountStep ue s from rfl,
            unmountStep_unmounted ue s hm]
          exact ⟨c, h, fun hab => hab⟩
      | true =>
          cases ha : s.activations with
          | zero =>
              rw [show runStep ue s Step.unmount = unmountStep ue s from rfl,
                unmountStep_noPending ue s hm (hInv.pendZero ha)]
              exact ⟨c, h, fun hab => hab⟩
          | succ k =>
              rw [show runStep ue s Step.unmount = unmountStep ue s from rfl,
                unmountStep_pending ue s k hm (hInv.mountPend hm k ha)]
              obtain ⟨c', hc', hco⟩ := teardownCtrls_getElem?_some ue k h
              exact ⟨c', hc', fun hab => abortedTrue_of_variant hco hab⟩
  | render deps =>
      cases hm : s.mounted with
      | false =>
          rw [show runStep ue s (Step.render deps) = renderStep ue deps s from rfl,
            renderStep_unmounted ue deps s hm]
          exact ⟨c, h, fun hab => hab⟩
      | true =>
          cases ha : s.activations with
          | zero =>
              have hctrls : s.ctrls = [] := by
                rw [← List.length_eq_zero, hInv.lenActs, ha]
              rw [hctrls] at h
              simp at h
          | succ k =>
              have href : s.controllerRef = some k := by rw [hInv.refEq, ha]; rfl
              cases hrun : shouldRunEffect deps s with
              | false =>
                  rw [show runStep ue s (Step.render deps) = renderStep ue deps s from rfl,
                    renderStep_skip ue deps s hm k href hrun]
                  exact ⟨c, h, fun hab => hab⟩
              | true =>
                  have hfr : s.firstRun = false := by rw [hInv.firstAct, ha]; rfl
                  have hlen : s.ctrls.length = k + 1 := by rw [hInv.lenActs, ha]
                  rw [show runStep ue s (Step.render deps) = renderStep ue deps s from rfl,
                    renderStep_reactivate ue deps s k hm href hlen hfr ha
                      (hInv.mountPend hm k ha) hrun]
                  obtain ⟨c', hc', hco⟩ := teardownCtrls_getElem?_some ue k h
                  exact ⟨c', getElem?_append_some hc',
                    fun hab => abortedTrue_of_variant hco hab⟩

theorem foldl_ctrls_mono (ue : UserEffect) (env : Bool) (extra : List Step) :
    ∀ s, Inv ue env s → ∀ (i : Nat) (c : CtrlState), s.ctrls[i]? = some c →
      ∃ c', (extra.foldl (runStep ue) s).ctrls[i]? = some c'
        ∧ (c.aborted = true → c'.aborted = true) := by
  induction extra with
  | nil => exact fun s _ i c h => ⟨c, h, fun hab => hab⟩
  | cons st rest ih =>
      intro s hs i c h
      obtain ⟨c1, h1, hm1⟩ := runStep_ctrls_mono ue env s st hs i c h
      obtain ⟨c2, h2, hm2⟩ := ih _ (inv_runStep ue env s st hs) i c1 h1
      exact ⟨c2, h2, fun hab => hm2 (hm1 hab)⟩

theorem runSteps_append (ue : UserEffect) (env : Bool) (steps extra : List Step) :
    runSteps ue env (steps ++ extra)
      = extra.foldl (runStep ue) (runSteps ue env steps) := by
  unfold runSteps
  exact List.foldl_append _ _ _ _

theorem abortCtrlState_mock {c : CtrlState} (h : c.isMock = true) :
    abortCtrlState c = c := by
  unfold abortCtrlState
  simp [h]

theorem abortCtrlState_idem (c : CtrlState) :
    abortCtrlState (abortCtrlState c) = abortCtrlState c := by
  unfold abortCtrlState
  by_cases hm : c.isMock <;> by_cases ha : c.aborted <;> simp [hm, ha]

theorem abortCtrlState_notified_one {c : CtrlState} (hm : c.isMock = false)
    (hn : c.notified = if c.aborted then 1 else 0) :
    (abortCtrlState c).notified = 1 := by
  unfold abortCtrlState
  by_cases ha : c.aborted <;> simp [hm, ha] <;> simp [ha] at hn <;> omega

theorem shouldRunEffect_none (s : Sim) : shouldRunEffect none s = true := by
  unfold shouldRunEffect
  cases s.prevDeps <;> rfl

theorem effectCall_ne_tdEvent (ue : UserEffect) (k j : Nat) (sig : AbortSignalRef) :
    Event.effectCall k sig ≠ tdEvent ue j := by
  unfold tdEvent
  by_cases h : ue.returnsFn j <;> simp [h]

theorem runCleanup_controllerRef (ue : UserEffect) (s : Sim) :
    (runCleanup ue s).controllerRef = s.controllerRef := by
  unfold runCleanup
  rcases hp : s.pendingCleanup with _ | cl
  · rfl
  · rcases cl with ⟨k, c⟩ | ⟨k, c⟩
    · by_cases hca : ue.cleanupCallsAbort k <;> simp [hca]
    · rfl

theorem runCleanup_ctrls_frame (ue : UserEffect) (s : Sim) (k c j : Nat)
    (h : s.pendingCleanup = some (Cleanup.custom k c)
      ∨ s.pendingCleanup = some (Cleanup.dflt k c)) (hj : j ≠ c) :
    (runCleanup ue s).ctrls[j]? = s.ctrls[j]? := by
  unfold runCleanup
  rcases h with h | h <;> rw [h]
  · by_cases hca : ue.cleanupCallsAbort k <;> simp [hca]
    exact modifyIdx_getElem?_ne s.ctrls c j abortCtrlState hj
  · exact modifyIdx_getElem?_ne s.ctrls c j abortCtrlState hj

/-! ### Exception-aware rendering of the effect and cleanup code paths

The hook body contains no `try`/`catch`: `effect(controller.signal)` and
`cleanupFn.call(null, controller)` are called in tail position of
straight-line code, so a synchronous throw escapes the hook unchanged, while
the hook's own controller creation and the default `abort()` teardown are
total.  Throwing user code is modelled in the `Except` monad. -/

/-- The hook's `useEffect` callback with a user effect that may throw:
install a fresh controller unless this is the first run, call
`effect(controller.signal)` — propagating any error without handling — and
otherwise register the teardown chosen by the returned value (`true` stands
for returning a cleanup function). -/
def effectPhaseE {ε : Type} (effectE : AbortSignalRef → Except ε Bool) (s : Sim) :
    Except ε Sim :=
  let s :=
    if s.firstRun = false then
      { s with ctrls := s.ctrls ++ [createAbortController s.envHasAC],
               controllerRef := some s.ctrls.length }
    else { s with firstRun := false }
  match s.controllerRef with
  | none => Except.ok s
  | some c =>
      Except.map
        (fun b => { s with
          trace := s.trace ++ [Event.effectCall s.activations ⟨c⟩],
          activations := s.activations + 1,
          pendingCleanup :=
            some (if b then Cleanup.custom s.activations c
                  else Cleanup.dflt s.activations c) })
        (effectE ⟨c⟩)

/-- Running the registered teardown when the user cleanup may throw: the
custom path calls the user function — propagating any error unchanged — and
the default path just calls `controller.abort()`, which cannot fail. -/
def runCleanupE {ε : Type} (cleanupE : Nat → Nat → Except ε Unit) (s : Sim) :
    Except ε Sim :=
  match s.pendingCleanup with
  | none => Except.ok s
  | some (Cleanup.custom k c) =>
      Except.map
        (fun _ => { s with trace := s.trace ++ [Event.customCleanup k c],
                           pendingCleanup := none })
        (cleanupE k c)
  | some (Cleanup.dflt k c) =>
      Except.ok { s with trace := s.trace ++ [Event.defaultAbort k c],
                         ctrls := modifyIdx s.ctrls c abortCtrlState,
                         pendingCleanup := none }

/-! ### Concrete scenarios used to exercise the theorems -/

/-- A user effect that never returns a cleanup function (default teardown
path throughout). -/
def ueDefaultOnly : UserEffect := ⟨fun _ => false, fun _ => false⟩

/-- A user effect that returns a cleanup function on every activation, whose
cleanup calls `abort()` on the controller it is handed. -/
def ueCustomOnly : UserEffect := ⟨fun _ => true, fun _ => true⟩

/-! ### The claims -/

/-- C1: for every activation whose effect run returns a non-function value,
the registered teardown calls `abort()` on the handle of the just-ended
activation (the same handle whose signal that activation's effect received),
and it runs automatically at the next dependency change — immediately before
the next activation — or at destruction of the component instance. -/
theorem claim1_default_teardown_aborts_previous (ue : UserEffect) (env : Bool)
    (steps : List Step) (k : Nat) (hm : (runSteps ue env steps).mounted = true)
    (ha : (runSteps ue env steps).activations = k + 1)
    (hr : ue.returnsFn k = false) :
    Event.effectCall k ⟨k⟩ ∈ (runSteps ue env steps).trace
    ∧ (∀ deps, shouldRunEffect deps (runSteps ue env steps) = true →
        (renderStep ue deps (runSteps ue env steps)).trace
          = (runSteps ue env steps).trace
              ++ [Event.defaultAbort k k, Event.effectCall (k + 1) ⟨k + 1⟩])
    ∧ (unmountStep ue (runSteps ue env steps)).trace
        = (runSteps ue env steps).trace ++ [Event.defaultAbort k k] := by
  have hInv := inv_runSteps ue env steps
  set s := runSteps ue env steps with hs
  have hpc : s.pendingCleanup = some (mkCleanup ue k) := hInv.mountPend hm k ha
  have href : s.controllerRef = some k := by rw [hInv.refEq, ha]; rfl
  have hfr : s.firstRun = false := by rw [hInv.firstAct, ha]; rfl
  have hlen : s.ctrls.length = k + 1 := by rw [hInv.lenActs, ha]
  have htd : tdEvent ue k = Event.defaultAbort k k := by
    unfold tdEvent
    rw [hr]
    rfl
  refine ⟨?_, ?_, ?_⟩
  · rw [hInv.traceEq, ha]
    exact effectCall_mem_fullTrace ue _ (Nat.lt_succ_self k)
  · intro deps hrun
    rw [renderStep_reactivate ue deps s k hm href hlen hfr ha hpc hrun]
    rw [htd]
  · rw [unmountStep_pending ue s k hm hpc]
    rw [htd]

/-- C1 witness: after one activation with deps `['a']` and no cleanup
function, re-rendering with deps `['b']` appends exactly the default
`abort()` teardown of handle 0 followed by the new effect call, and
unmounting instead appends exactly that teardown. -/
theorem claim1_witness :
    Event.effectCall 0 ⟨0⟩
        ∈ (runSteps ueDefaultOnly true [Step.render (some [JSVal.str "a"])]).trace
    ∧ (renderStep ueDefaultOnly (some [JSVal.str "b"])
          (runSteps ueDefaultOnly true [Step.render (some [JSVal.str "a"])])).trace
        = (runSteps ueDefaultOnly true [Step.render (some [JSVal.str "a"])]).trace
            ++ [Event.defaultAbort 0 0, Event.effectCall 1 ⟨1⟩]
    ∧ (unmountStep ueDefaultOnly
          (runSteps ueDefaultOnly true [Step.render (some [JSVal.str "a"])])).trace
        = (runSteps ueDefaultOnly true [Step.render (some [JSVal.str "a"])]).trace
            ++ [Event.defaultAbort 0 0] := by
  have h := claim1_default_teardown_aborts_previous ueDefaultOnly true
    [Step.render (some [JSVal.str "a"])] 0 (by decide) (by decide) (by decide)
  exact ⟨h.1, h.2.1 (some [JSVal.str "b"]) (by decide), h.2.2⟩

/-- C2: for every activation whose effect run returns a function, that
function runs exactly once per activation boundary — it has run exactly once
as soon as the activation has been superseded or torn down, never more — it
receives the activation's own handle as argument, and the default `abort()`
teardown path never runs for that activation. -/
theorem claim2_custom_cleanup_exclusive_once (ue : UserEffect) (env : Bool)
    (steps : List Step) (k : Nat) (hr : ue.returnsFn k = true) :
    defaultCount k (runSteps ue env steps).trace = 0
    ∧ customCount k (runSteps ue env steps).trace ≤ 1
    ∧ ((k + 1 < (runSteps ue env steps).activations
        ∨ ((runSteps ue env steps).activations = k + 1
            ∧ (runSteps ue env steps).pendingCleanup = none)) →
        customCount k (runSteps ue env steps).trace = 1)
    ∧ (∀ c, Event.customCleanup k c ∈ (runSteps ue env steps).trace → c = k) := by
  have hInv := inv_runSteps ue env steps
  set s := runSteps ue env steps with hs
  have hr' : ¬(ue.returnsFn k = false) := by rw [hr]; simp
  refine ⟨?_, ?_, ?_, ?_⟩
  · rw [hInv.traceEq, defaultCount_fullTrace]
    rw [if_neg hr']
  · rw [hInv.traceEq, customCount_fullTrace, if_pos hr]
    split <;> omega
  · intro hcond
    rw [hInv.traceEq, customCount_fullTrace, if_pos hr, if_pos]
    rcases hcond with hlt | ⟨heq, hnone⟩
    · exact Or.inl hlt
    · refine Or.inr ⟨heq.symm, ?_⟩
      rw [hnone]
      rfl
  · intro c hc
    rw [hInv.traceEq] at hc
    rcases mem_fullTrace ue _ _ _ hc with ⟨j, _, hj⟩ | ⟨j, _, hj⟩
    · cases hj
    · obtain ⟨h1, h2, _⟩ := tdEvent_eq_customCleanup hj.symm
      omega

/-- C2 witness: with a custom cleanup on every activation, after two
activations (deps omitted) the cleanup of activation 0 has run exactly once,
received handle 0, and no default `abort()` teardown ran for it. -/
theorem claim2_witness :
    defaultCount 0 (runSteps ueCustomOnly true [Step.render none, Step.render none]).trace = 0
    ∧ customCount 0 (runSteps ueCustomOnly true [Step.render none, Step.render none]).trace ≤ 1
    ∧ customCount 0 (runSteps ueCustomOnly true [Step.render none, Step.render none]).trace = 1
    ∧ (Event.customCleanup 0 0
        ∈ (runSteps ueCustomOnly true [Step.render none, Step.render none]).trace → (0 : Nat) = 0) := by
  have h := claim2_custom_cleanup_exclusive_once ueCustomOnly true
    [Step.render none, Step.render none] 0 (by decide)
  exact ⟨h.1, h.2.1, h.2.2.1 (by decide), h.2.2.2 0⟩

/-- C3: every invocation of the user effect receives the signal object of
the active handle (activation `k` gets the signal of handle `k`, never the
handle itself — the event payload is an `AbortSignalRef`); the very first
activation reuses the single handle created at initialisation (after the
first render exactly one handle exists, with index 0), and every later
activation constructs a brand-new handle (index `k + 1`, which did not exist
before, since the store had length `k + 1`) and installs it in the ref
before the effect call is recorded. -/
theorem claim3_signal_and_handle_freshness (ue : UserEffect) (env : Bool)
    (steps : List Step) :
    (∀ k sig, Event.effectCall k sig ∈ (runSteps ue env steps).trace → sig = ⟨k⟩)
    ∧ (runSteps ue env steps).ctrls.length = (runSteps ue env steps).activations
    ∧ (∀ deps, (runSteps ue env steps).mounted = true →
        (runSteps ue env steps).activations = 0 →
        (renderStep ue deps (runSteps ue env steps)).ctrls = [createAbortController env]
        ∧ (renderStep ue deps (runSteps ue env steps)).controllerRef = some 0
        ∧ (renderStep ue deps (runSteps ue env steps)).trace = [Event.effectCall 0 ⟨0⟩])
    ∧ (∀ deps k, (runSteps ue env steps).mounted = true →
        (runSteps ue env steps).activations = k + 1 →
        shouldRunEffect deps (runSteps ue env steps) = true →
        (runSteps ue env steps).ctrls.length = k + 1
        ∧ (renderStep ue deps (runSteps ue env steps)).ctrls.length = k + 2
        ∧ (renderStep ue deps (runSteps ue env steps)).controllerRef = some (k + 1)
        ∧ (renderStep ue deps (runSteps ue env steps)).trace
            = (runSteps ue env steps).trace
                ++ [tdEvent ue k, Event.effectCall (k + 1) ⟨k + 1⟩]) := by
  have hInv := inv_runSteps ue env steps
  set s := runSteps ue env steps with hs
  refine ⟨?_, hInv.lenActs, ?_, ?_⟩
  · intro k sig hmem
    rw [hInv.traceEq] at hmem
    rcases mem_fullTrace ue _ _ _ hmem with ⟨j, _, hj⟩ | ⟨j, _, hj⟩
    · obtain ⟨h1, h2⟩ := Event.effectCall.inj hj
      rw [h2, h1]
    · exact absurd hj (effectCall_ne_tdEvent ue k j sig)
  · intro deps hm ha
    have href : s.controllerRef = none := by rw [hInv.refEq, ha]; rfl
    have hctrls : s.ctrls = [] := by
      rw [← List.length_eq_zero, hInv.lenActs, ha]
    have hfr : s.firstRun = true := by rw [hInv.firstAct, ha]; rfl
    have hpd : s.prevDeps = none := hInv.actPrev ha
    have hpc : s.pendingCleanup = none := hInv.pendZero ha
    have htr : s.trace = [] := by rw [hInv.traceEq, ha]; rfl
    rw [renderStep_first ue deps s hm href hctrls hfr hpd hpc htr ha]
    exact ⟨by rw [hInv.envEq], rfl, rfl⟩
  · intro deps k hm ha hrun
    have href : s.controllerRef = some k := by rw [hInv.refEq, ha]; rfl
    have hfr : s.firstRun = false := by rw [hInv.firstAct, ha]; rfl
    have hpc : s.pendingCleanup = some (mkCleanup ue k) := hInv.mountPend hm k ha
    have hlen : s.ctrls.length = k + 1 := by rw [hInv.lenActs, ha]
    rw [renderStep_reactivate ue deps s k hm href hlen hfr ha hpc hrun]
    refine ⟨hlen, ?_, rfl, rfl⟩
    show (teardownCtrls ue k s.ctrls ++ [createAbortController s.envHasAC]).length = k + 2
    rw [List.length_append, teardownCtrls_length, hlen]
    rfl

/-- C3 witness: in the one-activation state with deps `['a']`, every recorded
effect call carried the signal of its own handle, exactly one handle exists,
and re-rendering with deps `['b']` creates handle 1 (previously absent),
installs it, and records the new effect call with signal 1. -/
theorem claim3_witness :
    ((Event.effectCall 0 ⟨0⟩
        ∈ (runSteps ueDefaultOnly true [Step.render (some [JSVal.str "a"])]).trace) → (⟨0⟩ : AbortSignalRef) = ⟨0⟩)
    ∧ (runSteps ueDefaultOnly true [Step.render (some [JSVal.str "a"])]).ctrls.length
        = (runSteps ueDefaultOnly true [Step.render (some [JSVal.str "a"])]).activations
    ∧ ((runSteps ueDefaultOnly true [Step.render (some [JSVal.str "a"])]).ctrls.length = 1
        ∧ (renderStep ueDefaultOnly (some [JSVal.str "b"])
            (runSteps ueDefaultOnly true [Step.render (some [JSVal.str "a"])])).ctrls.length = 2
        ∧ (renderStep ueDefaultOnly (some [JSVal.str "b"])
            (runSteps ueDefaultOnly true [Step.render (some [JSVal.str "a"])])).controllerRef = some 1
        ∧ (renderStep ueDefaultOnly (some [JSVal.str "b"])
            (runSteps ueDefaultOnly true [Step.render (some [JSVal.str "a"])])).trace
            = (runSteps ueDefaultOnly true [Step.render (some [JSVal.str "a"])]).trace
                ++ [tdEvent ueDefaultOnly 0, Event.effectCall 1 ⟨1⟩]) := by
  have h := claim3_signal_and_handle_freshness ueDefaultOnly true
    [Step.render (some [JSVal.str "a"])]
  exact ⟨h.1 0 ⟨0⟩, h.2.1,
    h.2.2.2 (some [JSVal.str "b"]) 0 (by decide) (by decide) (by decide)⟩

/-- C4: with the dependency list omitted the effect runs on every committed
render; with a list supplied, a list whose elements compare equal (element
by element, by value through `Object.is`) to the previous render's list
suppresses the effect entirely (the state is unchanged except for the stored
deps), while a list with a differing element triggers a new activation and
replaces the handle in the ref. -/
theorem claim4_dependency_semantics (ue : UserEffect) (env : Bool) (steps : List Step) :
    ((runSteps ue env steps).mounted = true →
        (renderStep ue none (runSteps ue env steps)).activations
          = (runSteps ue env steps).activations + 1)
    ∧ (∀ prev next, (runSteps ue env steps).mounted = true →
        (runSteps ue env steps).prevDeps = some (some prev) →
        depsZipEqual next prev = true →
        renderStep ue (some next) (runSteps ue env steps)
          = { runSteps ue env steps with prevDeps := some (some next) })
    ∧ (∀ prev next k, (runSteps ue env steps).mounted = true →
        (runSteps ue env steps).prevDeps = some (some prev) →
        depsZipEqual next prev = false →
        (runSteps ue env steps).activations = k + 1 →
        (runSteps ue env steps).controllerRef = some k
        ∧ (renderStep ue (some next) (runSteps ue env steps)).activations = k + 2
        ∧ (renderStep ue (some next) (runSteps ue env steps)).controllerRef = some (k + 1)
        ∧ effectCount (k + 1)
            (renderStep ue (some next) (runSteps ue env steps)).trace = 1) := by
  have hInv := inv_runSteps ue env steps
  set s := runSteps ue env steps with hs
  refine ⟨?_, ?_, ?_⟩
  · intro hm
    cases ha : s.activations with
    | zero =>
        have href : s.controllerRef = none := by rw [hInv.refEq, ha]; rfl
        have hctrls : s.ctrls = [] := by
          rw [← List.length_eq_zero, hInv.lenActs, ha]
        have hfr : s.firstRun = true := by rw [hInv.firstAct, ha]; rfl
        rw [renderStep_first ue none s hm href hctrls hfr (hInv.actPrev ha)
          (hInv.pendZero ha) (by rw [hInv.traceEq, ha]; rfl) ha]
    | succ k =>
        have href : s.controllerRef = some k := by rw [hInv.refEq, ha]; rfl
        have hfr : s.firstRun = false := by rw [hInv.firstAct, ha]; rfl
        rw [renderStep_reactivate ue none s k hm href (by rw [hInv.lenActs, ha]) hfr ha
          (hInv.mountPend hm k ha) (shouldRunEffect_none s)]
  · intro prev next hm hpd heq
    have hrun : shouldRunEffect (some next) s = false := by
      unfold shouldRunEffect
      rw [hpd]
      show (!(depsZipEqual next prev)) = false
      rw [heq]
      rfl
    have hact : s.activations ≠ 0 := fun h0 => by
      rw [hInv.actPrev h0] at hpd
      cases hpd
    have href : s.controllerRef = some (s.activations - 1) := by
      rw [hInv.refEq, if_neg hact]
    exact renderStep_skip ue (some next) s hm (s.activations - 1) href hrun
  · intro prev next k hm hpd hne ha
    have hrun : shouldRunEffect (some next) s = true := by
      unfold shouldRunEffect
      rw [hpd]
      show (!(depsZipEqual next prev)) = true
      rw [hne]
      rfl
    have href : s.controllerRef = some k := by rw [hInv.refEq, ha]; rfl
    have hfr : s.firstRun = false := by rw [hInv.firstAct, ha]; rfl
    have hpc : s.pendingCleanup = some (mkCleanup ue k) := hInv.mountPend hm k ha
    rw [renderStep_reactivate ue (some next) s k hm href (by rw [hInv.lenActs, ha]) hfr
      ha hpc hrun]
    refine ⟨href, rfl, rfl, ?_⟩
    show effectCount (k + 1)
      (s.trace ++ [tdEvent ue k, Event.effectCall (k + 1) ⟨k + 1⟩]) = 1
    unfold effectCount
    rw [List.countP_append, show List.countP (isEffectCallOf (k + 1)) s.trace
      = effectCount (k + 1) s.trace from rfl, hInv.traceEq, effectCount_fullTrace,
      if_neg (by rw [ha]; omega)]
    have h1 : isEffectCallOf (k + 1) (tdEvent ue k) = false :=
      isEffectCallOf_tdEvent ue (k + 1) k
    have h2 : isEffectCallOf (k + 1) (Event.effectCall (k + 1) ⟨k + 1⟩) = true := by
      simp [isEffectCallOf]
    simp [List.countP_cons, h1, h2]

/-- C4 witness: after activating with deps `['a']`, re-rendering with a
separately built but element-wise equal list `['a']` leaves the state
unchanged apart from the stored deps; re-rendering with `['b']` yields a
second activation with handle 1 installed and a single new effect call;
re-rendering with the list omitted always re-activates. -/
theorem claim4_witness :
    ((renderStep ueDefaultOnly none
        (runSteps ueDefaultOnly true [Step.render (some [JSVal.str "a"])])).activations
      = (runSteps ueDefaultOnly true [Step.render (some [JSVal.str "a"])]).activations + 1)
    ∧ renderStep ueDefaultOnly (some [JSVal.str "a"])
        (runSteps ueDefaultOnly true [Step.render (some [JSVal.str "a"])])
      = { runSteps ueDefaultOnly true [Step.render (some [JSVal.str "a"])] with
          prevDeps := some (some [JSVal.str "a"]) }
    ∧ ((runSteps ueDefaultOnly true [Step.render (some [JSVal.str "a"])]).controllerRef
          = some 0
        ∧ (renderStep ueDefaultOnly (some [JSVal.str "b"])
            (runSteps ueDefaultOnly true [Step.render (some [JSVal.str "a"])])).activations = 2
        ∧ (renderStep ueDefaultOnly (some [JSVal.str "b"])
            (runSteps ueDefaultOnly true [Step.render (some [JSVal.str "a"])])).controllerRef
          = some 1
        ∧ effectCount 1 (renderStep ueDefaultOnly (some [JSVal.str "b"])
            (runSteps ueDefaultOnly true [Step.render (some [JSVal.str "a"])])).trace = 1) := by
  have h := claim4_dependency_semantics ueDefaultOnly true
    [Step.render (some [JSVal.str "a"])]
  exact ⟨h.1 (by decide),
    h.2.1 [JSVal.str "a"] [JSVal.str "a"] (by decide) (by decide) (by decide),
    h.2.2 [JSVal.str "a"] [JSVal.str "b"] 0 (by decide) (by decide) (by decide) (by decide)⟩

/-- C5: at every reachable state, the ref cell the binder hands out holds
exactly the handle of the most recent activation: before any activation it
is still unset, and after activation `k` it holds handle `k` (no recorded
effect call has a larger activation number), which exists in the store and
has the full controller shape — native or the mock fallback exactly
according to the environment, with its listener count matching its aborted
flag.  External readers see this at any time, i.e. after any interaction
sequence. -/
theorem claim5_ref_current_is_latest_handle (ue : UserEffect) (env : Bool)
    (steps : List Step) :
    ((runSteps ue env steps).activations = 0 →
        (runSteps ue env steps).controllerRef = none)
    ∧ (∀ k, (runSteps ue env steps).activations = k + 1 →
        (runSteps ue env steps).controllerRef = some k
        ∧ Event.effectCall k ⟨k⟩ ∈ (runSteps ue env steps).trace
        ∧ (∀ j sig, Event.effectCall j sig ∈ (runSteps ue env steps).trace → j ≤ k)
        ∧ ∃ c, (runSteps ue env steps).ctrls[k]? = some c
            ∧ c.isMock = !env ∧ c.notified = (if c.aborted then 1 else 0)) := by
  have hInv := inv_runSteps ue env steps
  set s := runSteps ue env steps with hs
  refine ⟨fun h0 => by rw [hInv.refEq, h0]; rfl, ?_⟩
  intro k ha
  have href : s.controllerRef = some k := by rw [hInv.refEq, ha]; rfl
  have hlen : s.ctrls.length = k + 1 := by rw [hInv.lenActs, ha]
  have hck : ∃ c, s.ctrls[k]? = some c := by
    rw [List.getElem?_eq_getElem (by omega)]
    exact ⟨_, rfl⟩
  obtain ⟨c, hc⟩ := hck
  have hok := hInv.ctrlsOk c (List.getElem?_mem hc)
  refine ⟨href, ?_, ?_, c, hc, hok.1, hok.2.1⟩
  · rw [hInv.traceEq, ha]
    exact effectCall_mem_fullTrace ue _ (Nat.lt_succ_self k)
  · intro j sig hmem
    rw [hInv.traceEq] at hmem
    rcases mem_fullTrace ue _ _ _ hmem with ⟨i, hi, hj⟩ | ⟨i, _, hj⟩
    · obtain ⟨h1, _⟩ := Event.effectCall.inj hj
      omega
    · exact absurd hj (effectCall_ne_tdEvent ue j i sig)

/-- C5 witness: after two activations (deps omitted), the ref holds handle 1,
that handle is in the store with the native shape, activation 1's effect
call is recorded, and no later effect call exists. -/
theorem claim5_witness :
    (runSteps ueDefaultOnly true [Step.render none, Step.render none]).controllerRef = some 1
    ∧ Event.effectCall 1 ⟨1⟩
        ∈ (runSteps ueDefaultOnly true [Step.render none, Step.render none]).trace
    ∧ (Event.effectCall 1 ⟨1⟩
        ∈ (runSteps ueDefaultOnly true [Step.render none, Step.render none]).trace →
        (1 : Nat) ≤ 1)
    ∧ ∃ c, (runSteps ueDefaultOnly true [Step.render none, Step.render none]).ctrls[1]?
          = some c
        ∧ c.isMock = !true ∧ c.notified = (if c.aborted then 1 else 0) := by
  have h := (claim5_ref_current_is_latest_handle ueDefaultOnly true
    [Step.render none, Step.render none]).2 1 (by decide)
  exact ⟨h.1, h.2.1, fun hmem => h.2.2.1 1 ⟨1⟩ hmem, h.2.2.2⟩

/-- C6: if the environment lacks the `AbortController` constructor, every
handle the binder ever creates is the mock no-op object: its `abort()` is the
identity on its state, its `aborted` flag is never true, and its listeners
are never notified.  (The model is total, so no interaction can fail.) -/
theorem claim6_mock_fallback_is_noop (ue : UserEffect) (steps : List Step) :
    ∀ c ∈ (runSteps ue false steps).ctrls,
      c.isMock = true ∧ c.aborted = false ∧ c.notified = 0 ∧ abortCtrlState c = c := by
  have hInv := inv_runSteps ue false steps
  intro c hc
  obtain ⟨h1, h2, h3⟩ := hInv.ctrlsOk c hc
  have hm : c.isMock = true := by rw [h1]; rfl
  have hab : c.aborted = false := h3 hm
  refine ⟨hm, hab, ?_, abortCtrlState_mock hm⟩
  rw [h2, hab]
  rfl

/-- C6 witness: in the fallback environment, after a render, an external
abort and another render, the sole initial handle is the mock, un-aborted,
with no notifications, and aborting it is a no-op. -/
theorem claim6_witness :
    createAbortController false
        ∈ (runSteps ueDefaultOnly false
            [Step.render none, Step.extAbort, Step.render none]).ctrls
    ∧ ((createAbortController false).isMock = true
        ∧ (createAbortController false).aborted = false
        ∧ (createAbortController false).notified = 0
        ∧ abortCtrlState (createAbortController false) = createAbortController false) := by
  refine ⟨by decide, ?_⟩
  exact claim6_mock_fallback_is_noop ueDefaultOnly
    [Step.render none, Step.extAbort, Step.render none]
    (createAbortController false) (by decide)

/-- C7 counterexample: the claim quantifies over every handle exposed
through the binder's reference, but in an environment without
`AbortController` the exposed handle is the mock — after mounting, the ref
holds handle 0, yet calling `abort()` on it leaves `signal.aborted` false
and notifies no listener. -/
theorem claim7_counterexample :
    (runSteps ueDefaultOnly false [Step.render none]).controllerRef = some 0
    ∧ ((externalAbort (runSteps ueDefaultOnly false [Step.render none])).ctrls[0]?).map
        CtrlState.aborted = some false
    ∧ ((externalAbort (runSteps ueDefaultOnly false [Step.render none])).ctrls[0]?).map
        CtrlState.notified = some 0 := by
  decide

/-- C7 (amended: when the native `AbortController` primitive is available —
so that every handle the binder creates is native): calling `abort()` on any
handle exposed through the binder's reference sets `signal.aborted` to true
and notifies listeners exactly once in total; a repeated `abort()` is a
no-op; and the aborted flag is monotonic — once aborted, the handle stays
aborted through every later interaction. -/
theorem claim7_abort_once_idempotent_monotonic (ue : UserEffect) (steps : List Step)
    (i : Nat) (c : CtrlState) (hc : (runSteps ue true steps).ctrls[i]? = some c) :
    c.isMock = false
    ∧ (abortCtrlState c).aborted = true
    ∧ (abortCtrlState c).notified = 1
    ∧ abortCtrlState (abortCtrlState c) = abortCtrlState c
    ∧ (c.aborted = true → abortCtrlState c = c)
    ∧ (∀ extra, ∃ c', (runSteps ue true (steps ++ extra)).ctrls[i]? = some c'
        ∧ (c.aborted = true → c'.aborted = true)) := by
  have hInv := inv_runSteps ue true steps
  have hok := hInv.ctrlsOk c (List.getElem?_mem hc)
  have hmock : c.isMock = false := by rw [hok.1]; rfl
  refine ⟨hmock, abortCtrlState_aborted_of_native hmock,
    abortCtrlState_notified_one hmock hok.2.1, abortCtrlState_idem c,
    abortCtrlState_aborted_mono c, ?_⟩
  intro extra
  rw [runSteps_append ue true steps extra]
  exact foldl_ctrls_mono ue true extra _ hInv i c hc

/-- C7 witness: in a native environment after one activation, handle 0 is
native; aborting it flips `aborted`, notifies exactly once, is idempotent,
and after a further render the (still stored) handle keeps any aborted
state it had. -/
theorem claim7_witness :
    (createAbortController true).isMock = false
    ∧ (abortCtrlState (createAbortController true)).aborted = true
    ∧ (abortCtrlState (createAbortController true)).notified = 1
    ∧ abortCtrlState (abortCtrlState (createAbortController true))
        = abortCtrlState (createAbortController true)
    ∧ ((createAbortController true).aborted = true →
        abortCtrlState (createAbortController true) = createAbortController true)
    ∧ ∃ c', (runSteps ueDefaultOnly true ([Step.render none] ++ [Step.render none])).ctrls[0]?
          = some c'
        ∧ ((createAbortController true).aborted = true → c'.aborted = true) := by
  have h := claim7_abort_once_idempotent_monotonic ueDefaultOnly [Step.render none] 0
    (createAbortController true) (by decide)
  exact ⟨h.1, h.2.1, h.2.2.1, h.2.2.2.1, h.2.2.2.2.1, h.2.2.2.2.2 [Step.render none]⟩

/-- C8: teardown of activation `N` runs synchronously inside the render that
starts activation `N + 1`, before the new handle is appended to the store
and before the new effect call is recorded (the resulting trace is the old
trace followed first by the teardown event, then by the effect call, and the
resulting store is the torn-down old store with the fresh handle appended
after it); every ended activation is torn down exactly once, an activation
is never torn down more than once nor before it ends; and under the default
cleanup path two live handles never coexist — every superseded default-path
handle is aborted. -/
theorem claim8_teardown_ordering_exactly_once (ue : UserEffect) (env : Bool)
    (steps : List Step) :
    (∀ k, teardownCount k (runSteps ue env steps).trace ≤ 1)
    ∧ (∀ k, k + 1 < (runSteps ue env steps).activations →
        teardownCount k (runSteps ue env steps).trace = 1)
    ∧ (∀ k, (runSteps ue env steps).activations ≤ k →
        teardownCount k (runSteps ue env steps).trace = 0)
    ∧ (∀ k deps, (runSteps ue env steps).mounted = true →
        (runSteps ue env steps).activations = k + 1 →
        shouldRunEffect deps (runSteps ue env steps) = true →
        (renderStep ue deps (runSteps ue env steps)).trace
          = (runSteps ue env steps).trace
              ++ [tdEvent ue k, Event.effectCall (k + 1) ⟨k + 1⟩]
        ∧ (renderStep ue deps (runSteps ue env steps)).ctrls
          = teardownCtrls ue k (runSteps ue env steps).ctrls
              ++ [createAbortController env])
    ∧ (env = true → ∀ i, i + 1 < (runSteps ue env steps).activations →
        ue.returnsFn i = false →
        ∃ c, (runSteps ue env steps).ctrls[i]? = some c ∧ c.aborted = true) := by
  have hInv := inv_runSteps ue env steps
  set s := runSteps ue env steps with hs
  refine ⟨?_, ?_, ?_, ?_, hInv.oldAborted⟩
  · intro k
    rw [hInv.traceEq, teardownCount_fullTrace]
    split <;> omega
  · intro k hk
    rw [hInv.traceEq, teardownCount_fullTrace, if_pos (Or.inl hk)]
  · intro k hk
    rw [hInv.traceEq, teardownCount_fullTrace, if_neg]
    omega
  · intro k deps hm ha hrun
    have href : s.controllerRef = some k := by rw [hInv.refEq, ha]; rfl
    have hfr : s.firstRun = false := by rw [hInv.firstAct, ha]; rfl
    rw [renderStep_reactivate ue deps s k hm href (by rw [hInv.lenActs, ha]) hfr ha
      (hInv.mountPend hm k ha) hrun]
    exact ⟨rfl, by rw [hInv.envEq]⟩

/-- C8 witness: in the one-activation state (deps `['a']`, default cleanup),
no teardown has run yet (≤ 1 and = 0 for unstarted activations); re-rendering
with `['b']` appends the teardown of activation 0 strictly before the effect
call of activation 1 and appends the fresh handle after aborting the old
store; and in the two-activation state handle 0 is aborted. -/
theorem claim8_witness :
    teardownCount 0 (runSteps ueDefaultOnly true [Step.render (some [JSVal.str "a"])]).trace ≤ 1
    ∧ teardownCount 1 (runSteps ueDefaultOnly true [Step.render (some [JSVal.str "a"])]).trace = 0
    ∧ ((renderStep ueDefaultOnly (some [JSVal.str "b"])
          (runSteps ueDefaultOnly true [Step.render (some [JSVal.str "a"])])).trace
        = (runSteps ueDefaultOnly true [Step.render (some [JSVal.str "a"])]).trace
            ++ [tdEvent ueDefaultOnly 0, Event.effectCall 1 ⟨1⟩]
      ∧ (renderStep ueDefaultOnly (some [JSVal.str "b"])
          (runSteps ueDefaultOnly true [Step.render (some [JSVal.str "a"])])).ctrls
        = teardownCtrls ueDefaultOnly 0
            (runSteps ueDefaultOnly true [Step.render (some [JSVal.str "a"])]).ctrls
            ++ [createAbortController true])
    ∧ (∃ c, (runSteps ueDefaultOnly true
          [Step.render (some [JSVal.str "a"]), Step.render (some [JSVal.str "b"])]).ctrls[0]?
        = some c ∧ c.aborted = true) := by
  have h := claim8_teardown_ordering_exactly_once ueDefaultOnly true
    [Step.render (some [JSVal.str "a"])]
  have h2 := claim8_teardown_ordering_exactly_once ueDefaultOnly true
    [Step.render (some [JSVal.str "a"]), Step.render (some [JSVal.str "b"])]
  exact ⟨h.1 0, h.2.2.1 1 (by decide),
    h.2.2.2.1 0 (some [JSVal.str "b"]) (by decide) (by decide) (by decide),
    h2.2.2.2.2 (by decide) 0 (by decide) (by decide)⟩

theorem except_map_error {ε α β : Type} (f : α → β) (x : Except ε α) (e : ε)
    (h : x = Except.error e) : Except.map f x = Except.error e := by
  rw [h]
  rfl

theorem except_map_ok_exists {ε α β : Type} (f : α → β) (x : Except ε α)
    (h : ∃ a, x = Except.ok a) : ∃ b, Except.map f x = Except.ok b := by
  obtain ⟨a, rfl⟩ := h
  exact ⟨f a, rfl⟩

/-- C9: a synchronous throw inside the user effect or inside a custom
cleanup function escapes the hook as exactly the same error — the hook
installs no handler, so the effect phase (after its non-throwing controller
bookkeeping) or the cleanup run evaluates to that very error — while the
hook's own cancellation signalling cannot fail: the default `abort()`
teardown always succeeds, and with a non-throwing effect the whole effect
phase always succeeds. -/
theorem claim9_errors_propagate_uncaught {ε : Type} (s : Sim) (e : ε) :
    (∀ (effectE : AbortSignalRef → Except ε Bool),
        s.firstRun = false → effectE ⟨s.ctrls.length⟩ = Except.error e →
        effectPhaseE effectE s = Except.error e)
    ∧ (∀ (effectE : AbortSignalRef → Except ε Bool) (c : Nat),
        s.firstRun = true → s.controllerRef = some c →
        effectE ⟨c⟩ = Except.error e →
        effectPhaseE effectE s = Except.error e)
    ∧ (∀ (cleanupE : Nat → Nat → Except ε Unit) (k c : Nat),
        s.pendingCleanup = some (Cleanup.custom k c) → cleanupE k c = Except.error e →
        runCleanupE cleanupE s = Except.error e)
    ∧ (∀ (cleanupE : Nat → Nat → Except ε Unit) (k c : Nat),
        s.pendingCleanup = some (Cleanup.dflt k c) →
        ∃ s', runCleanupE cleanupE s = Except.ok s')
    ∧ (∀ (effectE : AbortSignalRef → Except ε Bool),
        (∀ sig, ∃ b, effectE sig = Except.ok b) →
        ∃ s', effectPhaseE effectE s = Except.ok s') := by
  refine ⟨?_, ?_, ?_, ?_, ?_⟩
  · intro effectE hfr herr
    obtain ⟨env, ctrls, fr, ref, m, pd, pc, tr, act⟩ := s
    simp only at hfr
    subst hfr
    exact except_map_error _ _ e herr
  · intro effectE c hfr href herr
    obtain ⟨env, ctrls, fr, ref, m, pd, pc, tr, act⟩ := s
    simp only at hfr href
    subst hfr href
    exact except_map_error _ _ e herr
  · intro cleanupE k c hpc herr
    obtain ⟨env, ctrls, fr, ref, m, pd, pc, tr, act⟩ := s
    simp only at hpc
    subst hpc
    exact except_map_error _ _ e herr
  · intro cleanupE k c hpc
    obtain ⟨env, ctrls, fr, ref, m, pd, pc, tr, act⟩ := s
    simp only at hpc
    subst hpc
    exact ⟨_, rfl⟩
  · intro effectE hok
    obtain ⟨env, ctrls, fr, ref, m, pd, pc, tr, act⟩ := s
    cases fr with
    | false => exact except_map_ok_exists _ _ (hok ⟨ctrls.length⟩)
    | true =>
        cases ref with
        | none => exact ⟨_, rfl⟩
        | some c => exact except_map_ok_exists _ _ (hok ⟨c⟩)

/-- C9 witness: from the mounted initial state, a first-run effect that
throws error `7` makes the effect phase evaluate to exactly `error 7`
(after the initial controller is in the ref); a throwing custom cleanup
propagates its error; the default teardown and a non-throwing effect always
succeed. -/
theorem claim9_witness :
    effectPhaseE (fun _ => (Except.error 7 : Except Nat Bool))
        { initSim true with controllerRef := some 0,
                            ctrls := [createAbortController true] }
      = Except.error 7
    ∧ runCleanupE (fun _ _ => (Except.error 7 : Except Nat Unit))
        { initSim true with pendingCleanup := some (Cleanup.custom 0 0) }
      = Except.error 7
    ∧ (∃ s', runCleanupE (fun _ _ => (Except.ok Unit.unit : Except Nat Unit))
        { initSim true with pendingCleanup := some (Cleanup.dflt 0 0) } = Except.ok s')
    ∧ (∃ s', effectPhaseE (fun _ => (Except.ok false : Except Nat Bool)) (initSim true) = Except.ok s') := by
  refine ⟨?_, ?_, ?_, ?_⟩
  · exact (claim9_errors_propagate_uncaught
      { initSim true with controllerRef := some 0,
                          ctrls := [createAbortController true] } (7 : Nat)).2.1
      (fun _ => (Except.error 7 : Except Nat Bool)) 0 rfl rfl rfl
  · exact (claim9_errors_propagate_uncaught
      { initSim true with pendingCleanup := some (Cleanup.custom 0 0) } (7 : Nat)).2.2.1
      (fun _ _ => (Except.error 7 : Except Nat Unit)) 0 0 rfl rfl
  · exact (claim9_errors_propagate_uncaught
      { initSim true with pendingCleanup := some (Cleanup.dflt 0 0) } (7 : Nat)).2.2.2.1
      (fun _ _ => (Except.ok Unit.unit : Except Nat Unit)) 0 0 rfl
  · exact (claim9_errors_propagate_uncaught (initSim true) (7 : Nat)).2.2.2.2
      (fun _ => (Except.ok false : Except Nat Bool)) (fun sig => ⟨false, rfl⟩)

/-- C10: the handle a teardown receives is the very handle of its own
activation — every recorded teardown event for activation `k` names handle
`k`, the handle whose signal activation `k`'s effect received; the pending
teardown always captures the latest activation's own handle; and running the
registered teardown neither changes which handle the shared ref holds nor
touches any handle other than the captured one. -/
theorem claim10_teardown_captures_own_epoch (ue : UserEffect) (env : Bool)
    (steps : List Step) :
    (∀ k c, (Event.customCleanup k c ∈ (runSteps ue env steps).trace
        ∨ Event.defaultAbort k c ∈ (runSteps ue env steps).trace) →
        c = k ∧ Event.effectCall k ⟨k⟩ ∈ (runSteps ue env steps).trace)
    ∧ (∀ cl, (runSteps ue env steps).pendingCleanup = some cl →
        ∃ k, (runSteps ue env steps).activations = k + 1 ∧ cl = mkCleanup ue k
          ∧ Event.effectCall k ⟨k⟩ ∈ (runSteps ue env steps).trace)
    ∧ (runCleanup ue (runSteps ue env steps)).controllerRef
        = (runSteps ue env steps).controllerRef
    ∧ (∀ k c j, ((runSteps ue env steps).pendingCleanup = some (Cleanup.custom k c)
          ∨ (runSteps ue env steps).pendingCleanup = some (Cleanup.dflt k c)) →
        j ≠ c →
        (runCleanup ue (runSteps ue env steps)).ctrls[j]?
          = (runSteps ue env steps).ctrls[j]?) := by
  have hInv := inv_runSteps ue env steps
  set s := runSteps ue env steps with hs
  have hmemEff : ∀ k, k < s.activations → Event.effectCall k ⟨k⟩ ∈ s.trace := by
    intro k hk
    rw [hInv.traceEq]
    exact effectCall_mem_fullTrace ue _ hk
  refine ⟨?_, ?_, runCleanup_controllerRef ue s, ?_⟩
  · intro k c hmem
    rcases hmem with hmem | hmem <;> rw [hInv.traceEq] at hmem
    · rcases mem_fullTrace ue _ _ _ hmem with ⟨j, _, hj⟩ | ⟨j, hcond, hj⟩
      · cases hj
      · obtain ⟨h1, h2, _⟩ := tdEvent_eq_customCleanup hj.symm
        refine ⟨by omega, hmemEff k ?_⟩
        rcases hcond with hlt | ⟨heq, _⟩ <;> omega
    · rcases mem_fullTrace ue _ _ _ hmem with ⟨j, _, hj⟩ | ⟨j, hcond, hj⟩
      · cases hj
      · obtain ⟨h1, h2, _⟩ := tdEvent_eq_defaultAbort hj.symm
        refine ⟨by omega, hmemEff k ?_⟩
        rcases hcond with hlt | ⟨heq, _⟩ <;> omega
  · intro cl hcl
    have hact : s.activations ≠ 0 := fun h0 => by
      rw [hInv.pendZero h0] at hcl
      cases hcl
    have hmt : s.mounted = true := by
      cases hmt : s.mounted with
      | true => rfl
      | false =>
          rw [hInv.pendUn hmt] at hcl
          cases hcl
    obtain ⟨k, hk⟩ : ∃ k, s.activations = k + 1 :=
      ⟨s.activations - 1, by omega⟩
    have := hInv.mountPend hmt k hk
    rw [this] at hcl
    obtain rfl := Option.some.inj hcl.symm
    exact ⟨k, hk, rfl, hmemEff k (by omega)⟩
  · intro k c j hpc hj
    exact runCleanup_ctrls_frame ue s k c j hpc hj

/-- C10 witness: in the one-activation state with a custom cleanup, the
pending teardown is exactly activation 0's cleanup capturing handle 0 (the
handle whose signal the effect received), and running it leaves the ref and
the (hypothetical) other slots untouched. -/
theorem claim10_witness :
    ((Event.customCleanup 0 0 ∈ (runSteps ueCustomOnly true [Step.render none]).trace
        ∨ Event.defaultAbort 0 0 ∈ (runSteps ueCustomOnly true [Step.render none]).trace) →
      ((0 : Nat) = 0
        ∧ Event.effectCall 0 ⟨0⟩ ∈ (runSteps ueCustomOnly true [Step.render none]).trace))
    ∧ (∃ k, (runSteps ueCustomOnly true [Step.render none]).activations = k + 1
        ∧ Cleanup.custom 0 0 = mkCleanup ueCustomOnly k
        ∧ Event.effectCall k ⟨k⟩ ∈ (runSteps ueCustomOnly true [Step.render none]).trace)
    ∧ (runCleanup ueCustomOnly (runSteps ueCustomOnly true [Step.render none])).controllerRef
        = (runSteps ueCustomOnly true [Step.render none]).controllerRef
    ∧ (runCleanup ueCustomOnly (runSteps ueCustomOnly true [Step.render none])).ctrls[5]?
        = (runSteps ueCustomOnly true [Step.render none]).ctrls[5]? := by
  have h := claim10_teardown_captures_own_epoch ueCustomOnly true [Step.render none]
  exact ⟨h.1 0 0, h.2.1 (Cleanup.custom 0 0) (by decide), h.2.2.1,
    h.2.2.2 0 0 5 (Or.inl (by decide)) (by decide)⟩

end UseAbortableEffect
